import Mathlib

/-!
Verification development for the `cs182-ec-a` repository.

The repository ingests discussion threads from a paginated remote source,
extracts and downloads attachments referenced in thread bodies, transcribes
PDF attachments, and classifies each thread's text along several heuristic
dimensions.  This file gives a shallow embedding of the pure algorithmic
content of the two relevant modules:

* `special_participation_site/scripts/process_data.py` — keyword classifiers
  (`extract_homework_id`, `detect_model_name`, `determine_primary_focus`,
  `compute_depth_and_word_count`, `build_ed_url`);
* `thread_util/fetch_threads.py` — the pagination loop
  (`fetch_all_threads`), filename sanitisation (`sanitize_filename`), the
  per-thread attachment pipeline (`process_thread_files`) and the manifest
  accumulation in `main`.

Python strings are modelled as `List Char`.  Character classes (`\s`, `\w`,
`str.isspace`) are modelled over their ASCII fragments, which is where all
the fixed keyword tables and the claims live.  Effectful collaborators
(HTTP download success, PDF text extraction, placeholder writes, the remote
paginated endpoint) are modelled as explicit oracle functions passed in as
arguments, which is the standard shallow embedding of blocking IO whose
results flow into the data.
-/

/-! ### Python string primitives -/

/-- ASCII whitespace, as recognised by `str.split()` / regex `\s`. -/
def pyIsSpace (c : Char) : Bool :=
  c = ' ' || c = '\t' || c = '\n' || c = '\r' || c = '\x0b' || c = '\x0c'

/-- `str.lower()` (ASCII fragment). -/
def pyLower (l : List Char) : List Char :=
  l.map Char.toLower

/-- Python's `needle in hay` substring test on strings. -/
def substr (needle hay : List Char) : Bool :=
  decide (needle <:+: hay)

/-- Whitespace-splitting `str.split()` with no argument: maximal runs of
non-whitespace characters, in order, with no empty tokens.  `cur` is the
reversed token currently being accumulated. -/
def pySplitAux : List Char → List Char → List (List Char)
  | [], cur => if cur.isEmpty then [] else [cur.reverse]
  | c :: rest, cur =>
    if pyIsSpace c then
      if cur.isEmpty then pySplitAux rest [] else cur.reverse :: pySplitAux rest []
    else pySplitAux rest (c :: cur)

/-- `document.split()`. -/
def pySplit (l : List Char) : List (List Char) :=
  pySplitAux l []

/-- Code-point lexicographic comparison on character lists, the order Python
uses to compare strings. -/
def lexLe : List Char → List Char → Bool
  | [], _ => true
  | _ :: _, [] => false
  | a :: as, b :: bs => if a = b then lexLe as bs else decide (a < b)

/-- Python string `<=`. -/
def strLeb (a b : String) : Bool :=
  lexLe a.data b.data

/-- Insert into a sorted list of strings. -/
def insertSorted (x : String) : List String → List String
  | [] => [x]
  | y :: ys => if strLeb x y then x :: y :: ys else y :: insertSorted x ys

/-- Python `sorted()` on a list of strings (insertion sort; on
duplicate-free inputs any correct comparison sort agrees). -/
def sortStrings : List String → List String
  | [] => []
  | x :: xs => insertSorted x (sortStrings xs)

/-! ### `process_data.py`: homework-id extraction

`HW_PATTERN = re.compile(r"\b(?:hw|homework)\s*0*([0-9]+)\b", re.IGNORECASE)`
and `extract_homework_id` (`process_data.py` lines 60-71).  The regex is
embedded as an explicit leftmost-match searcher.  Case-insensitivity is
modelled by lowering the text before matching (digit, whitespace and
word-character classes are unaffected by case).  For this pattern the
regex engine's backtracking resolves deterministically:

* the two alternatives `hw` / `homework` differ at their second character,
  so at most one applies at a given start position;
* `\s*` is followed by `0*([0-9]+)`, and no digit is whitespace, so the
  greedy whitespace run never gives characters back;
* `0*([0-9]+)` together consume the maximal digit run (the group keeps at
  least one digit), and since every digit is a word character the final
  `\b` holds exactly when the character after that maximal run (if any) is
  not a word character — no shorter split can satisfy it;
* `int(group)` discards the leading zeros anyway, so the value produced is
  the numeric value of the whole digit run.
-/

/-- Regex `\w` (ASCII fragment): letters, digits, underscore. -/
def isWordChar (c : Char) : Bool :=
  c.isAlphanum || c = '_'

/-- Numeric value of a list of decimal digit characters, as `int()` on the
captured group.  Leading zeros do not change the value. -/
def natOfDigits (ds : List Char) : Nat :=
  ds.foldl (fun acc c => acc * 10 + (c.toNat - '0'.toNat)) 0

/-- Match `\s*0*([0-9]+)\b` against `l` (the text after the keyword).
Returns the numeric value of the digit run on success. -/
def matchAfterKw (l : List Char) : Option Nat :=
  let l1 := l.dropWhile pyIsSpace
  let ds := l1.takeWhile Char.isDigit
  let rest := l1.dropWhile Char.isDigit
  if ds.isEmpty then none
  else match rest with
    | [] => some (natOfDigits ds)
    | c :: _ => if isWordChar c then none else some (natOfDigits ds)

/-- Match `(?:hw|homework)\s*0*([0-9]+)\b` at the head of `l` (already
lowered; the leading `\b` is checked by the caller). -/
def matchKwAt (l : List Char) : Option Nat :=
  if ['h', 'w'].isPrefixOf l then matchAfterKw (l.drop 2)
  else if ['h', 'o', 'm', 'e', 'w', 'o', 'r', 'k'].isPrefixOf l then matchAfterKw (l.drop 8)
  else none

/-- Scan left to right for the first position where the full pattern
matches.  `prevIsWord` records whether the previous character is a word
character: the pattern starts with the word character `h`, so the leading
`\b` holds exactly when the previous character is absent or non-word. -/
def hwSearchAux : Bool → List Char → Option Nat
  | _, [] => none
  | prevIsWord, c :: rest =>
    match (if prevIsWord then none else matchKwAt (c :: rest)) with
    | some n => some n
    | none => hwSearchAux (isWordChar c) rest

/-- `HW_PATTERN.search(text)`: value captured at the leftmost match. -/
def hwSearch (text : List Char) : Option Nat :=
  hwSearchAux false (pyLower text)

/-- `extract_homework_id` (`process_data.py` lines 63-71). -/
def extract_homework_id (text : List Char) : String :=
  match hwSearch text with
  | none => "Unknown"
  | some n => "HW" ++ Nat.repr n

/-! ### `process_data.py`: model-name detection -/

/-- `MODEL_KEYWORDS` (`process_data.py` lines 74-83), in dict insertion
order. -/
def MODEL_KEYWORDS : List (String × List (List Char)) :=
  [ ("Kimi", [['k', 'i', 'm', 'i']]),
    ("Claude", [['c', 'l', 'a', 'u', 'd', 'e']]),
    ("ChatGPT 5.1", [['5', '.', '1', ' ', 't', 'h', 'i', 'n', 'k', 'i', 'n', 'g'],
                     ['g', 'p', 't', ' ', '5', '.', '1']]),
    ("GPT-5", [['g', 'p', 't', '5'], ['g', 'p', 't', ' ', '5']]),
    ("ChatGPT (other)", [['c', 'h', 'a', 't', 'g', 'p', 't']]),
    ("DeepSeek", [['d', 'e', 'e', 'p', 's', 'e', 'e', 'k']]),
    ("LLaMA", [['l', 'l', 'a', 'm', 'a']]),
    ("LLM (unspecified)", [['l', 'l', 'm'],
                           ['l', 'a', 'n', 'g', 'u', 'a', 'g', 'e', ' ', 'm', 'o', 'd', 'e', 'l']]) ]

/-- The `hits` list built by the scanning loop in `detect_model_name`: a
label is appended (once, thanks to the `break`) when any of its phrases
occurs in the text; table order is preserved. -/
def modelHits (text_lower : List Char) : List String :=
  (MODEL_KEYWORDS.filter (fun p => p.2.any (fun phrase => substr phrase text_lower))).map (·.1)

/-- `detect_model_name` (`process_data.py` lines 86-97).
`unique = sorted(set(hits))` is modelled by `sortStrings ∘ dedup`; the
(unreachable) empty-`unique` indexing `unique[0]` is modelled with a
default. -/
def detect_model_name (text_lower : List Char) : String :=
  let hits := modelHits text_lower
  if hits.isEmpty then "Unknown / Multiple"
  else
    let unique := sortStrings hits.dedup
    if 1 < unique.length then "Unknown / Multiple"
    else unique.headD "Unknown / Multiple"

/-! ### `process_data.py`: primary-focus classification -/

/-- `FOCUS_KEYWORDS` (`process_data.py` lines 100-131), in dict insertion
order. -/
def FOCUS_KEYWORDS : List (String × List (List Char)) :=
  [ ("model_performance",
      [ ['h', 'a', 'l', 'l', 'u', 'c', 'i', 'n', 'a', 't', 'i', 'o', 'n'],
        ['h', 'a', 'l', 'l', 'u', 'c', 'i', 'n', 'a', 't', 'e'],
        ['c', 'o', 'r', 'r', 'e', 'c', 't'],
        ['i', 'n', 'c', 'o', 'r', 'r', 'e', 'c', 't'],
        ['m', 'i', 's', 't', 'a', 'k', 'e'],
        ['e', 'r', 'r', 'o', 'r'],
        ['a', 'c', 'c', 'u', 'r', 'a', 'c', 'y'],
        ['r', 'e', 'a', 's', 'o', 'n', 'i', 'n', 'g'],
        ['s', 'o', 'l', 'v', 'e'],
        ['s', 'o', 'l', 'u', 't', 'i', 'o', 'n'] ]),
    ("assignment_feedback",
      [ ['a', 's', 's', 'i', 'g', 'n', 'm', 'e', 'n', 't'],
        ['q', 'u', 'e', 's', 't', 'i', 'o', 'n', ' ', 'w', 'o', 'r', 'd', 'i', 'n', 'g'],
        ['a', 'm', 'b', 'i', 'g', 'u', 'o', 'u', 's'],
        ['c', 'l', 'a', 'r', 'i', 't', 'y', ' ', 'o', 'f', ' ', 't', 'h', 'e', ' ',
         'q', 'u', 'e', 's', 't', 'i', 'o', 'n'],
        ['p', 'r', 'o', 'b', 'l', 'e', 'm', ' ', 's', 't', 'a', 't', 'e', 'm', 'e', 'n', 't'] ]),
    ("prompting_strategy",
      [ ['p', 'r', 'o', 'm', 'p', 't'],
        ['s', 'y', 's', 't', 'e', 'm', ' ', 'p', 'r', 'o', 'm', 'p', 't'],
        ['z', 'e', 'r', 'o', '-', 's', 'h', 'o', 't'],
        ['f', 'e', 'w', '-', 's', 'h', 'o', 't'],
        ['c', 'h', 'a', 'i', 'n', '-', 'o', 'f', '-', 't', 'h', 'o', 'u', 'g', 'h', 't'],
        ['c', 'o', 't'],
        ['s', 't', 'e', 'p', ' ', 'b', 'y', ' ', 's', 't', 'e', 'p'],
        ['t', 'u', 'r', 'n', '-', 'b', 'y', '-', 't', 'u', 'r', 'n'] ]),
    ("meta_reflection",
      [ ['r', 'e', 'f', 'l', 'e', 'c', 't', 'i', 'o', 'n'],
        ['r', 'e', 'f', 'l', 'e', 'c', 't'],
        ['e', 'x', 'p', 'e', 'r', 'i', 'e', 'n', 'c', 'e'],
        ['t', 'a', 'k', 'e', 'a', 'w', 'a', 'y'],
        ['t', 'a', 'k', 'e', '-', 'a', 'w', 'a', 'y'],
        ['l', 'e', 's', 's', 'o', 'n'],
        ['l', 'e', 'a', 'r', 'n', 'e', 'd'],
        ['m', 'e', 't', 'a'] ]) ]

/-- `FOCUS_PRIORITY` (`process_data.py` lines 134-139). -/
def FOCUS_PRIORITY : List String :=
  ["model_performance", "assignment_feedback", "prompting_strategy", "meta_reflection"]

/-- The score of one focus category: how many of its phrases occur as
substrings of the text (presence across the phrase list, not occurrence
count), exactly as the scoring loop in `determine_primary_focus`. -/
def focusScore (text_lower : List Char) (phrases : List (List Char)) : Nat :=
  phrases.countP (fun w => substr w text_lower)

/-- The `scores` dict of `determine_primary_focus`, in insertion order. -/
def focusScores (text_lower : List Char) : List (String × Nat) :=
  FOCUS_KEYWORDS.map (fun p => (p.1, focusScore text_lower p.2))

/-- `max(scores.values())` (all scores are naturals, so folding `max` from
`0` agrees with Python's `max` of the non-empty value list). -/
def maxFocusScore (text_lower : List Char) : Nat :=
  ((focusScores text_lower).map (·.2)).foldl max 0

/-- `determine_primary_focus` (`process_data.py` lines 142-160): score each
category, return `"mixed/other"` when all scores are zero, otherwise scan
`FOCUS_PRIORITY` keeping the first strictly-improving score (so ties go to
the earlier label), with `best_score` starting at `-1`. -/
def determine_primary_focus (text_lower : List Char) : String :=
  let scores := focusScores text_lower
  let max_score := maxFocusScore text_lower
  if max_score = 0 then "mixed/other"
  else
    let best := FOCUS_PRIORITY.foldl
      (fun best label =>
        let score : Int := ((scores.lookup label).getD 0 : Nat)
        if score > best.2 then (label, score) else best)
      (("mixed/other", (-1 : Int)))
    if best.2 ≤ 0 then "mixed/other" else best.1

/-! ### `process_data.py`: depth bucket and word count -/

/-- `DEPTH_TERMS` (`process_data.py` lines 163-172). -/
def DEPTH_TERMS : List (List Char) :=
  [ ['a', 'n', 'a', 'l', 'y', 's', 'i', 's'],
    ['r', 'e', 'a', 's', 'o', 'n', 'i', 'n', 'g'],
    ['d', 'e', 'r', 'i', 'v', 'a', 't', 'i', 'o', 'n'],
    ['s', 't', 'e', 'p', ' ', 'b', 'y', ' ', 's', 't', 'e', 'p'],
    ['c', 'a', 'r', 'e', 'f', 'u', 'l', 'l', 'y'],
    ['d', 'e', 't', 'a', 'i', 'l', 'e', 'd'],
    ['i', 'n', 't', 'u', 'i', 't', 'i', 'o', 'n'],
    ['d', 'i', 's', 'c', 'u', 's', 's', 'i', 'o', 'n'] ]

/-- `any(term in doc_lower for term in DEPTH_TERMS)`. -/
def hasDepthTerm (document : List Char) : Bool :=
  DEPTH_TERMS.any (fun term => substr term (pyLower document))

/-- The depth score: `word_count` plus a flat 150 bonus when some depth
term occurs in the lowered body. -/
def depthScore (document : List Char) : Nat :=
  (pySplit document).length + (if hasDepthTerm document then 150 else 0)

/-- `compute_depth_and_word_count` (`process_data.py` lines 175-192):
returns `(bucket, word_count)` where the bucket thresholds the depth score
at 200 and 600.  The word count is over the body only. -/
def compute_depth_and_word_count (document : List Char) : String × Nat :=
  let word_count := (pySplit document).length
  let score := depthScore document
  let bucket := if score < 200 then "low" else if score < 600 then "medium" else "high"
  (bucket, word_count)

/-! ### `process_data.py`: Ed URL construction -/

/-- Python truthiness of an optional integer field: `None` and `0` are
falsy. -/
def pyTruthyInt : Option Int → Bool
  | none => false
  | some n => n != 0

/-- `build_ed_url` (`process_data.py` lines 237-240). -/
def build_ed_url (course_id thread_id : Option Int) : Option String :=
  if !pyTruthyInt course_id || !pyTruthyInt thread_id then none
  else
    some ("https://edstem.org/us/courses/" ++ toString (course_id.getD 0) ++
      "/discussion/" ++ toString (thread_id.getD 0))

/-! ### `thread_util/fetch_threads.py`: pagination loop

`fetch_all_threads` (lines 22-64).  The remote endpoint
`ed.list_threads(course_id, limit=batch_size, offset, sort="new")` is
modelled as an oracle `src : Nat → List T` from offsets to pages.  The
`while True` loop is embedded with explicit fuel (the Python loop need not
terminate on a source that keeps returning full pages); `none` means the
fuel ran out before the loop exited.  Alongside the accumulated threads we
record the trace of offsets requested, one entry per `list_threads` call. -/

section Fetch

variable {T : Type}

/-- One run of the `while True` loop of `fetch_all_threads`, from state
`(offset, all_threads)`; `calls` accumulates the offsets requested so far. -/
def fetchLoop (src : Nat → List T) (batch : Nat) :
    Nat → Nat → List T → List Nat → Option (List T × List Nat)
  | 0, _, _, _ => none
  | fuel + 1, offset, acc, calls =>
    let threads := src offset
    if threads.isEmpty then some (acc, calls ++ [offset])
    else if threads.length < batch then some (acc ++ threads, calls ++ [offset])
    else fetchLoop src batch fuel (offset + batch) (acc ++ threads) (calls ++ [offset])

/-- `fetch_all_threads(course_id, batch_size)`: run the loop from offset 0
with empty accumulator.  Returns the accumulated threads and the offset
trace. -/
def fetch_all_threads (src : Nat → List T) (batch : Nat) (fuel : Nat) :
    Option (List T × List Nat) :=
  fetchLoop src batch fuel 0 [] []

/-- A paginated view of a fixed finite store: the page at `offset` is the
next `batch` items, fewer at the tail — the behaviour of the thread-list
endpoint over a course holding `items`. -/
def pagedSource (items : List T) (batch : Nat) (offset : Nat) : List T :=
  (items.drop offset).take batch

end Fetch

/-! ### `thread_util/fetch_threads.py`: filename sanitisation -/

/-- The character class `[<>:"/\\|?*]` replaced by `sanitize_filename`. -/
def bannedChar (c : Char) : Bool :=
  c = '<' || c = '>' || c = ':' || c = '"' || c = '/' || c = '\\' ||
    c = '|' || c = '?' || c = '*'

/-- `re.sub(r'[<>:"/\\|?*]', '_', filename)`. -/
def subBanned (l : List Char) : List Char :=
  l.map (fun c => if bannedChar c then '_' else c)

/-- `str.strip(chars)`: drop characters satisfying `p` from the front,
then from the back. -/
def stripChars (p : Char → Bool) (l : List Char) : List Char :=
  ((l.dropWhile p).reverse.dropWhile p).reverse

/-- The strip set of `sanitized.strip('. ')`: the dot and the space
character (only — no other whitespace). -/
def dotOrSpace (c : Char) : Bool :=
  c = '.' || c = ' '

/-- `sanitize_filename` (`fetch_threads.py` lines 107-113). -/
def sanitize_filename (filename : List Char) : List Char :=
  stripChars dotOrSpace (subBanned filename)

/-- The strip set the spec describes instead: any leading/trailing
whitespace, or dots.  Modelled from the spec sentence "strips
leading/trailing whitespace and dots" for comparison with the code's
`strip('. ')`. -/
def sanitizeSpecClaim (filename : List Char) : List Char :=
  stripChars (fun c => c.isWhitespace || c = '.') (subBanned filename)

/-! ### `thread_util/fetch_threads.py`: attachment pipeline

`process_thread_files` (lines 158-221) and the manifest loop of `main`
(lines 266-285).  `extract_files_from_content` is a fixed scanner from
body markup to attachment references; both `main` and
`process_thread_files` invoke it on the same content, so it is passed in
once as a function argument `extractF`.  The effectful collaborators are
oracles: `downloadOk url` is the success of `download_file(url, path)`,
`writeOk path` the success of the placeholder `write_bytes` (its failure
is swallowed by `try/except: pass`, so no output depends on it), and
`pdfText path` the text returned by `pdf_to_text(path)` (empty on parse
failure or when PyMuPDF is unavailable). -/

/-- An attachment reference as returned by `extract_files_from_content`. -/
structure FileInfo where
  url : String
  filename : List Char
  position : Nat
  context : String
deriving DecidableEq

/-- One manifest file record (the `file_record` dict). -/
structure FileRecord where
  original_filename : List Char
  saved_as : String
  url : String
  position : Nat
  context : String
  transcript : Option String
deriving DecidableEq

/-- The thread fields the attachment pipeline reads. -/
structure Thread where
  id : Option Nat
  number : Nat
  title : String
  content : String

/-- `filename.lower().endswith('.pdf')`. -/
def isPdfName (filename : List Char) : Bool :=
  decide (['.', 'p', 'd', 'f'] <:+ pyLower filename)

/-- `f"files/thread_{thread_num}/{filename}"`. -/
def savedPath (threadNum : Nat) (filename : List Char) : String :=
  "files/thread_" ++ Nat.repr threadNum ++ "/" ++ filename.asString

/-- `filename.rsplit('.', 1)[0]`: everything before the last dot, or the
whole name when there is no dot. -/
def stemOf (l : List Char) : List Char :=
  if '.' ∈ l then ((l.reverse.dropWhile (fun c => c != '.')).drop 1).reverse else l

/-- The record built by one iteration of the loop in
`process_thread_files` for a surviving attachment: all fields from the
reference, and a transcript pointer exactly when we are downloading, the
sanitized name ends in `.pdf`, and `pdf_to_text` produced non-empty
text. -/
def mkFileRecord (pdfText : String → String) (download_files : Bool)
    (threadNum : Nat) (f : FileInfo) : FileRecord :=
  let filename := sanitize_filename f.filename
  let relative_path := savedPath threadNum filename
  let base : FileRecord :=
    { original_filename := f.filename
      saved_as := relative_path
      url := f.url
      position := f.position
      context := f.context
      transcript := none }
  if download_files && isPdfName filename then
    let text := pdfText relative_path
    if text ≠ "" then
      { base with transcript := some (savedPath threadNum (stemOf filename ++ ['.', 't', 'x', 't'])) }
    else base
  else base

/-- Whether an attachment survives the loop: in download mode a failed
`download_file` hits the `continue` and drops it; in no-download mode the
placeholder write failure is swallowed and every attachment survives. -/
def keepFile (downloadOk : String → Bool) (download_files : Bool) (f : FileInfo) : Bool :=
  !(download_files && !downloadOk f.url)

/-- `process_thread_files(thread, files_dir, download_files)` (lines
158-221): scan the content, and build a record per surviving attachment in
scan order.  `writeOk` is accepted (the placeholder write happens) but no
output depends on it. -/
def process_thread_files (extractF : String → List FileInfo)
    (downloadOk : String → Bool) (writeOk : String → Bool)
    (pdfText : String → String) (download_files : Bool) (t : Thread) : List FileRecord :=
  let files := extractF t.content
  if files.isEmpty then []
  else
    files.foldl
      (fun processed f =>
        if keepFile downloadOk download_files f then
          let _ := writeOk (savedPath t.number (sanitize_filename f.filename))
          processed ++ [mkFileRecord pdfText download_files t.number f]
        else processed)
      []

/-- One manifest entry (`files_manifest[str(thread_num)]`). -/
structure ManifestEntry where
  thread_id : Option Nat
  thread_title : String
  files : List FileRecord

/-- Python dict assignment on a string-keyed association list: overwrite
in place when the key is present, append otherwise. -/
def dictInsert (m : List (String × ManifestEntry)) (k : String) (v : ManifestEntry) :
    List (String × ManifestEntry) :=
  if m.any (fun p => p.1 == k) then m.map (fun p => if p.1 == k then (k, v) else p)
  else m ++ [(k, v)]

/-- One iteration of the manifest loop of `main` (lines 266-285): scan the
thread's content; when it has attachment references, process them, and
record an entry keyed by `str(thread_num)` only when processing produced a
non-empty record list. -/
def manifestStep (extractF : String → List FileInfo)
    (downloadOk : String → Bool) (writeOk : String → Bool)
    (pdfText : String → String) (download_files : Bool)
    (manifest : List (String × ManifestEntry)) (t : Thread) : List (String × ManifestEntry) :=
  let files_in_content := extractF t.content
  if files_in_content.isEmpty then manifest
  else
    let processed := process_thread_files extractF downloadOk writeOk pdfText download_files t
    if processed.isEmpty then manifest
    else dictInsert manifest (Nat.repr t.number)
      { thread_id := t.id, thread_title := t.title, files := processed }

/-- The manifest accumulation of `main` over the filtered thread list,
starting from the empty dict. -/
def buildManifest (extractF : String → List FileInfo)
    (downloadOk : String → Bool) (writeOk : String → Bool)
    (pdfText : String → String) (download_files : Bool)
    (threads : List Thread) : List (String × ManifestEntry) :=
  threads.foldl (manifestStep extractF downloadOk writeOk pdfText download_files) []

/-- The keys present in the persisted manifest. -/
def manifestKeys (m : List (String × ManifestEntry)) : List String :=
  m.map (·.1)

/-! ### Auxiliary definitions used to state and witness the claims -/

/-- The shape `^HW[0-9]+$` from the spec, as a decidable check: the
characters `H`, `W`, then one or more decimal digits. -/
def isHWFormat (s : String) : Bool :=
  match s.data with
  | 'H' :: 'W' :: ds => !ds.isEmpty && ds.all Char.isDigit
  | _ => false

/-- A body consisting of `n` whitespace-separated one-letter tokens. -/
def tokensBody (n : Nat) : List Char :=
  (List.replicate n ['a', ' ']).flatten

/-- A concrete attachment reference used in witnesses. -/
def exampleFile : FileInfo :=
  { url := "u1", filename := ['a', '.', 'p', 'd', 'f'], position := 0, context := "ctx" }

/-- A concrete thread used in witnesses. -/
def exampleThread : Thread :=
  { id := some 5, number := 3, title := "t", content := "c" }


/-! ## Supporting lemmas -/

theorem dropWhile_idem {α : Type} (p : α → Bool) (l : List α) :
    (l.dropWhile p).dropWhile p = l.dropWhile p := by
  induction l with
  | nil => rfl
  | cons c rest ih =>
    by_cases h : p c
    · simpa [List.dropWhile_cons, h] using ih
    · simp [List.dropWhile_cons, h]

theorem dropWhile_eq_self_of_prefix {α : Type} {p : α → Bool} {l w : List α}
    (hpre : l <+: w) (hw : w.dropWhile p = w) : l.dropWhile p = l := by
  cases l with
  | nil => rfl
  | cons a l' =>
    obtain ⟨t, rfl⟩ := hpre
    rw [List.cons_append, List.dropWhile_cons] at hw
    rw [List.dropWhile_cons]
    by_cases h : p a
    · exfalso
      rw [if_pos h] at hw
      have hlen := congrArg List.length hw
      have hle := (List.dropWhile_sublist (l := l' ++ t) p).length_le
      simp only [List.length_cons, List.length_append] at hlen hle
      omega
    · simp [h]

theorem stripChars_idem (p : Char → Bool) (l : List Char) :
    stripChars p (stripChars p l) = stripChars p l := by
  unfold stripChars
  have hdm : (l.dropWhile p).dropWhile p = l.dropWhile p := dropWhile_idem p l
  have hdz : (((l.dropWhile p).reverse.dropWhile p)).dropWhile p
      = (l.dropWhile p).reverse.dropWhile p := dropWhile_idem p (l.dropWhile p).reverse
  have hzs : (l.dropWhile p).reverse.dropWhile p <:+ (l.dropWhile p).reverse :=
    List.dropWhile_suffix p
  have hzp : ((l.dropWhile p).reverse.dropWhile p).reverse <+: l.dropWhile p := by
    have h := List.reverse_prefix.mpr hzs
    simpa using h
  have h1 : (((l.dropWhile p).reverse.dropWhile p).reverse).dropWhile p
      = ((l.dropWhile p).reverse.dropWhile p).reverse :=
    dropWhile_eq_self_of_prefix hzp hdm
  rw [h1, List.reverse_reverse, hdz]

theorem mem_stripChars {p : Char → Bool} {l : List Char} {c : Char}
    (h : c ∈ stripChars p l) : c ∈ l := by
  unfold stripChars at h
  rw [List.mem_reverse] at h
  have h2 := (List.dropWhile_suffix p).subset h
  rw [List.mem_reverse] at h2
  exact (List.dropWhile_suffix p).subset h2

theorem subBanned_no_banned (l : List Char) : ∀ c ∈ subBanned l, bannedChar c = false := by
  intro c hc
  simp only [subBanned, List.mem_map] at hc
  obtain ⟨a, _, rfl⟩ := hc
  cases hb : bannedChar a <;> simp [hb] <;> decide

theorem subBanned_eq_self {l : List Char} (h : ∀ c ∈ l, bannedChar c = false) :
    subBanned l = l := by
  induction l with
  | nil => rfl
  | cons a rest ih =>
    have ha := h a (by simp)
    simp only [subBanned, List.map_cons, ha, Bool.false_eq_true, if_false, List.cons.injEq,
      true_and]
    exact ih fun c hc => h c (by simp [hc])

/-! ## Claim C6 — `sanitize_filename` -/

/-- C6 counterexample: the claim says `sanitize_filename` strips leading
and trailing *whitespace* (and dots).  The code's `strip('. ')` strips
only the literal space and dot characters, so on a name starting with a
tab the code and the claimed behaviour disagree. -/
theorem C6_counterexample :
    sanitize_filename ['\t', 'a'] ≠ sanitizeSpecClaim ['\t', 'a'] := by decide

/-- C6 (amended): `sanitize_filename` replaces each of `< > : " / \ | ? *`
with an underscore and then strips leading and trailing space and dot
characters (the space character specifically, not all whitespace);
consequently it is idempotent and its result never contains any of those
nine characters. -/
theorem C6_sanitize_filename (l : List Char) :
    sanitize_filename (sanitize_filename l) = sanitize_filename l ∧
    ∀ c ∈ sanitize_filename l, bannedChar c = false := by
  constructor
  · unfold sanitize_filename
    rw [subBanned_eq_self fun c hc => subBanned_no_banned l c (mem_stripChars hc),
      stripChars_idem]
  · intro c hc
    exact subBanned_no_banned l c (mem_stripChars hc)

/-- C6 witness: concrete evaluation of the amended claim. -/
theorem C6_witness :
    sanitize_filename (sanitize_filename ['a', '<', 'b']) = sanitize_filename ['a', '<', 'b'] ∧
    bannedChar 'a' = false :=
  ⟨(C6_sanitize_filename ['a', '<', 'b']).1,
    (C6_sanitize_filename ['a', '<', 'b']).2 'a' (by decide)⟩

/-! ## Claim C10 — `build_ed_url` -/

/-- C10: `build_ed_url` returns a URL string exactly when both `course_id`
and `thread_id` are truthy (not `None` and not `0`); when either is `None`
or `0` it returns `None`. -/
theorem C10_build_ed_url (course_id thread_id : Option Int) :
    ((build_ed_url course_id thread_id).isSome ↔
      pyTruthyInt course_id = true ∧ pyTruthyInt thread_id = true) ∧
    build_ed_url (some 7) (some 0) = none ∧
    build_ed_url (some 0) (some 7) = none ∧
    build_ed_url none (some 7) = none ∧
    build_ed_url (some 7) none = none := by
  refine ⟨?_, by decide, by decide, by decide, by decide⟩
  cases h1 : pyTruthyInt course_id <;> cases h2 : pyTruthyInt thread_id <;>
    simp [build_ed_url, h1, h2]

/-! ## Claim C4 — `extract_homework_id` -/

theorem digitChar_isDigit : ∀ m, m < 10 → (Nat.digitChar m).isDigit = true := by decide

theorem toDigitsCore_all_digits (fuel : Nat) :
    ∀ (n : Nat) (ds : List Char), (∀ c ∈ ds, c.isDigit = true) →
      ∀ c ∈ Nat.toDigitsCore 10 fuel n ds, c.isDigit = true := by
  induction fuel with
  | zero => intro n ds h; simpa [Nat.toDigitsCore] using h
  | succ fuel ih =>
    intro n ds h c hc
    have hdig : ∀ c ∈ (n % 10).digitChar :: ds, c.isDigit = true := by
      intro x hx
      rcases List.mem_cons.mp hx with hx | hx
      · subst hx; exact digitChar_isDigit _ (Nat.mod_lt _ (by norm_num))
      · exact h x hx
    rw [Nat.toDigitsCore] at hc
    by_cases hz : n / 10 = 0
    · rw [if_pos hz] at hc
      exact hdig c hc
    · rw [if_neg hz] at hc
      exact ih (n / 10) _ hdig c hc

theorem toDigitsCore_length_le (fuel : Nat) :
    ∀ (n : Nat) (ds : List Char), ds.length ≤ (Nat.toDigitsCore 10 fuel n ds).length := by
  induction fuel with
  | zero => intro n ds; simp [Nat.toDigitsCore]
  | succ fuel ih =>
    intro n ds
    rw [Nat.toDigitsCore]
    by_cases hz : n / 10 = 0
    · rw [if_pos hz]; simp
    · rw [if_neg hz]
      have := ih (n / 10) ((n % 10).digitChar :: ds)
      simp at this
      omega

theorem repr_data_digits (n : Nat) :
    (Nat.repr n).data ≠ [] ∧ ∀ c ∈ (Nat.repr n).data, c.isDigit = true := by
  have hdata : (Nat.repr n).data = Nat.toDigitsCore 10 (n + 1) n [] := rfl
  constructor
  · rw [hdata]
    intro hnil
    have h1 := toDigitsCore_length_le n (n / 10) ((n % 10).digitChar :: [])
    have : (Nat.toDigitsCore 10 (n + 1) n []).length = 0 := by rw [hnil]; rfl
    rw [Nat.toDigitsCore] at this
    by_cases hz : n / 10 = 0
    · rw [if_pos hz] at this; simp at this
    · rw [if_neg hz] at this; simp at h1; omega
  · rw [hdata]
    exact toDigitsCore_all_digits (n + 1) n [] (by simp)

theorem isHWFormat_HW (n : Nat) : isHWFormat ("HW" ++ Nat.repr n) = true := by
  obtain ⟨hne, hdig⟩ := repr_data_digits n
  have hdata : ("HW" ++ Nat.repr n).data = 'H' :: 'W' :: (Nat.repr n).data := rfl
  rw [isHWFormat, hdata]
  simp only [Bool.and_eq_true, List.all_eq_true, List.isEmpty_eq_false]
  exact ⟨by simpa using hne, fun c hc => by simpa using hdig c hc⟩

/-- C4: `extract_homework_id` returns `"Unknown"` exactly when the
(word-boundary-delimited, case-insensitive) pattern `hw`/`homework`,
optional whitespace, optional leading zeros, digits, has no match;
otherwise it returns `"HW{n}"` built from the leftmost match, so every
non-`"Unknown"` result matches `^HW[0-9]+$`.  Leading zeros never change
the captured value, and `"hw007"` yields `"HW7"`. -/
theorem C4_extract_homework_id (text : List Char) :
    (hwSearch text = none → extract_homework_id text = "Unknown") ∧
    (∀ n, hwSearch text = some n → extract_homework_id text = "HW" ++ Nat.repr n) ∧
    (extract_homework_id text = "Unknown" ∨ isHWFormat (extract_homework_id text) = true) ∧
    (∀ ds, natOfDigits ('0' :: ds) = natOfDigits ds) ∧
    extract_homework_id ("hw007").toList = "HW7" := by
  refine ⟨?_, ?_, ?_, fun ds => rfl, by decide⟩
  · intro h; rw [extract_homework_id, h]
  · intro n h; rw [extract_homework_id, h]
  · cases h : hwSearch text with
    | none => left; rw [extract_homework_id, h]
    | some n => right; rw [extract_homework_id, h]; exact isHWFormat_HW n

/-- C4 witness: concrete evaluations through the theorem. -/
theorem C4_witness :
    extract_homework_id ("no id here").toList = "Unknown" ∧
    extract_homework_id ("hw 12!").toList = "HW" ++ Nat.repr 12 :=
  ⟨(C4_extract_homework_id ("no id here").toList).1 (by decide),
    (C4_extract_homework_id ("hw 12!").toList).2.1 12 (by decide)⟩

/-! ## Claim C3 — `compute_depth_and_word_count` -/

theorem tokensBody_succ (n : Nat) : tokensBody (n + 1) = 'a' :: ' ' :: tokensBody n := by
  simp [tokensBody, List.replicate_succ]

theorem mem_tokensBody {c : Char} : ∀ {n : Nat}, c ∈ tokensBody n → c = 'a' ∨ c = ' ' := by
  intro n
  induction n with
  | zero => intro h; simp [tokensBody] at h
  | succ n ih =>
    rw [tokensBody_succ]
    intro h
    rcases List.mem_cons.mp h with h | h
    · exact Or.inl h
    · rcases List.mem_cons.mp h with h | h
      · exact Or.inr h
      · exact ih h

theorem pyLower_tokensBody (n : Nat) : pyLower (tokensBody n) = tokensBody n := by
  induction n with
  | zero => rfl
  | succ n ih => rw [tokensBody_succ]; simpa [pyLower] using ih

theorem pySplit_tokensBody_append (rest : List Char) (n : Nat) :
    (pySplit (tokensBody n ++ rest)).length = n + (pySplit rest).length := by
  induction n with
  | zero => simp [tokensBody]
  | succ n ih =>
    have hstep : tokensBody (n + 1) ++ rest = 'a' :: ' ' :: (tokensBody n ++ rest) := by
      rw [tokensBody_succ]; rfl
    have ha : pyIsSpace 'a' = false := by decide
    have hsp : pyIsSpace ' ' = true := by decide
    rw [pySplit, hstep]
    rw [pySplitAux, if_neg (by simp [ha])]
    rw [pySplitAux, if_pos (by simp [hsp])]
    rw [if_neg (by simp)]
    rw [pySplit] at ih
    simp only [List.length_cons]
    omega

theorem hasDepthTerm_tokensBody (n : Nat) : hasDepthTerm (tokensBody n) = false := by
  have hall : ∀ t ∈ DEPTH_TERMS, ∃ c ∈ t, ¬(c = 'a' ∨ c = ' ') := by decide
  rw [hasDepthTerm, pyLower_tokensBody, List.any_eq_false]
  intro t ht hsub
  obtain ⟨c, hct, hc⟩ := hall t ht
  have hinf : t <:+: tokensBody n := of_decide_eq_true hsub
  exact hc (mem_tokensBody (hinf.subset hct))

theorem wordCount_tokensBody (n : Nat) : (pySplit (tokensBody n)).length = n := by
  have h := pySplit_tokensBody_append [] n
  simpa [pySplit, pySplitAux] using h

/-- C3: the word count is the number of whitespace-separated tokens of the
body only; the depth score is the word count plus a flat 150 exactly when
a depth term occurs in the case-folded body; the bucket is `low` iff the
score is below 200, `medium` iff it is in `[200, 600)` and `high` iff it
is at least 600; and the three boundary examples from the claim hold. -/
theorem C3_compute_depth_and_word_count (document : List Char) :
    ((compute_depth_and_word_count document).2 = (pySplit document).length) ∧
    (depthScore document = (pySplit document).length + 150 ↔ hasDepthTerm document = true) ∧
    ((compute_depth_and_word_count document).1 = "low" ↔ depthScore document < 200) ∧
    ((compute_depth_and_word_count document).1 = "medium" ↔
      200 ≤ depthScore document ∧ depthScore document < 600) ∧
    ((compute_depth_and_word_count document).1 = "high" ↔ 600 ≤ depthScore document) ∧
    compute_depth_and_word_count (tokensBody 199) = ("low", 199) ∧
    compute_depth_and_word_count
      (tokensBody 198 ++ ['a', 'n', 'a', 'l', 'y', 's', 'i', 's']) = ("medium", 199) ∧
    compute_depth_and_word_count (tokensBody 600) = ("high", 600) := by
  refine ⟨rfl, ?_, ?_, ?_, ?_, ?_, ?_, ?_⟩
  · cases hd : hasDepthTerm document <;> simp [depthScore, hd]
  · rw [compute_depth_and_word_count]
    split_ifs with h1 h2 <;> simp_all [String.reduceEq, depthScore] <;> omega
  · rw [compute_depth_and_word_count]
    split_ifs with h1 h2 <;> simp_all [String.reduceEq, depthScore] <;> omega
  · rw [compute_depth_and_word_count]
    split_ifs with h1 h2 <;> simp_all [String.reduceEq, depthScore] <;> omega
  · have hw := wordCount_tokensBody 199
    have hd := hasDepthTerm_tokensBody 199
    simp [compute_depth_and_word_count, depthScore, hw, hd]
  · have hw := pySplit_tokensBody_append ['a', 'n', 'a', 'l', 'y', 's', 'i', 's'] 198
    have h1 : (pySplit ['a', 'n', 'a', 'l', 'y', 's', 'i', 's']).length = 1 := by decide
    have hlow : pyLower (tokensBody 198 ++ ['a', 'n', 'a', 'l', 'y', 's', 'i', 's'])
        = tokensBody 198 ++ ['a', 'n', 'a', 'l', 'y', 's', 'i', 's'] := by
      rw [pyLower, List.map_append]
      rw [show List.map Char.toLower ['a', 'n', 'a', 'l', 'y', 's', 'i', 's']
          = ['a', 'n', 'a', 'l', 'y', 's', 'i', 's'] from by decide]
      rw [show List.map Char.toLower (tokensBody 198) = tokensBody 198 from
        pyLower_tokensBody 198]
    have hd : hasDepthTerm (tokensBody 198 ++ ['a', 'n', 'a', 'l', 'y', 's', 'i', 's']) = true := by
      rw [hasDepthTerm, hlow]
      have hsub : substr ['a', 'n', 'a', 'l', 'y', 's', 'i', 's']
          (tokensBody 198 ++ ['a', 'n', 'a', 'l', 'y', 's', 'i', 's']) = true :=
        decide_eq_true (List.suffix_append _ _).isInfix
      simp [DEPTH_TERMS, hsub]
    rw [h1] at hw
    simp [compute_depth_and_word_count, depthScore, hw, hd]
  · have hw := wordCount_tokensBody 600
    have hd := hasDepthTerm_tokensBody 600
    simp [compute_depth_and_word_count, depthScore, hw, hd]

/-! ## Claim C1 — `determine_primary_focus` -/

set_option maxRecDepth 8000 in
set_option maxHeartbeats 1600000 in
/-- C1: when every focus category scores zero the result is
`"mixed/other"`; otherwise the result is the earliest label in the fixed
priority order whose score equals the maximum score, so equal nonzero
maximal scores for `assignment_feedback` and `prompting_strategy` give
`assignment_feedback`. -/
theorem C1_determine_primary_focus (text : List Char) :
    (determine_primary_focus text = "mixed/other" ↔ maxFocusScore text = 0) ∧
    (maxFocusScore text ≠ 0 →
      FOCUS_PRIORITY.find? (fun L => ((focusScores text).lookup L).getD 0 == maxFocusScore text)
        = some (determine_primary_focus text)) ∧
    determine_primary_focus ("assignment prompt").toList = "assignment_feedback" := by
  refine ⟨?_, ?_, by decide⟩ <;>
  · simp only [determine_primary_focus, focusScores, maxFocusScore, FOCUS_KEYWORDS, FOCUS_PRIORITY,
      List.map, List.foldl, List.lookup, List.find?]
    generalize focusScore text _ = s1
    generalize focusScore text _ = s2
    generalize focusScore text _ = s3
    generalize focusScore text _ = s4
    simp only [String.reduceBEq, beq_self_eq_true, Option.getD_some]
    split_ifs <;>
      simp_all only [beq_iff_eq, String.reduceEq, ne_eq, not_true_eq_false, not_false_eq_true,
        Option.some.injEq, iff_true, iff_false, true_implies, false_implies] <;>
    first
      | omega
      | (cases hb1 : s1 == 0 ⊔ s1 ⊔ s2 ⊔ s3 ⊔ s4 <;>
         cases hb2 : s2 == 0 ⊔ s1 ⊔ s2 ⊔ s3 ⊔ s4 <;>
         cases hb3 : s3 == 0 ⊔ s1 ⊔ s2 ⊔ s3 ⊔ s4 <;>
         cases hb4 : s4 == 0 ⊔ s1 ⊔ s2 ⊔ s3 ⊔ s4 <;>
         simp only [beq_iff_eq, beq_eq_false_iff_ne, ne_eq] at hb1 hb2 hb3 hb4 <;>
         first | rfl | (exfalso; omega))

/-- C1 witness: a text where every score is zero, through the theorem. -/
theorem C1_witness : determine_primary_focus ("zzz").toList = "mixed/other" :=
  (C1_determine_primary_focus ("zzz").toList).1.mpr (by decide)

/-! ## Claim C2 — `detect_model_name` -/

theorem length_insertSorted (x : String) (l : List String) :
    (insertSorted x l).length = l.length + 1 := by
  induction l with
  | nil => rfl
  | cons y ys ih =>
    rw [insertSorted]
    split_ifs <;> simp [ih]

theorem length_sortStrings (l : List String) : (sortStrings l).length = l.length := by
  induction l with
  | nil => rfl
  | cons x xs ih => rw [sortStrings, length_insertSorted, ih, List.length_cons]

theorem modelHits_nodup (text : List Char) : (modelHits text).Nodup := by
  have hkeys : (MODEL_KEYWORDS.map (·.1)).Nodup := by decide
  exact ((List.filter_sublist MODEL_KEYWORDS).map (·.1)).nodup hkeys

theorem detect_of_nil {text : List Char} (h : modelHits text = []) :
    detect_model_name text = "Unknown / Multiple" := by
  rw [detect_model_name, h]
  rfl

theorem detect_of_single {text : List Char} {L : String} (h : modelHits text = [L]) :
    detect_model_name text = L := by
  rw [detect_model_name, h]
  simp [sortStrings, insertSorted, List.dedup_cons_of_not_mem]

theorem detect_of_multi {text : List Char} (h : 1 < (modelHits text).length) :
    detect_model_name text = "Unknown / Multiple" := by
  rw [detect_model_name]
  have hne : (modelHits text).isEmpty = false := by
    rw [List.isEmpty_eq_false]
    intro hnil
    rw [hnil] at h
    simp at h
  rw [hne]
  have hdedup : (modelHits text).dedup = modelHits text :=
    List.dedup_eq_self.mpr (modelHits_nodup text)
  have hlen : 1 < (sortStrings (modelHits text).dedup).length := by
    rw [hdedup, length_sortStrings]; exact h
  simp only [Bool.false_eq_true, if_false, hlen, if_pos]

/-- C2: for a label `L` of the fixed keyword table, `detect_model_name`
returns `L` exactly when `L` is the unique label with a phrase occurring
in the text; with zero or two-or-more hit labels it returns
`"Unknown / Multiple"`, e.g. on a text containing both `claude` and
`deepseek`. -/
theorem C2_detect_model_name (text : List Char) :
    (∀ L, L ∈ MODEL_KEYWORDS.map (·.1) →
      (detect_model_name text = L ↔ modelHits text = [L])) ∧
    ((modelHits text).length ≠ 1 → detect_model_name text = "Unknown / Multiple") ∧
    detect_model_name ("used both claude and deepseek").toList = "Unknown / Multiple" := by
  have hUM : "Unknown / Multiple" ∉ MODEL_KEYWORDS.map (·.1) := by decide
  refine ⟨?_, ?_, by decide⟩
  · intro L hL
    constructor
    · intro hdet
      rcases hh : modelHits text with _ | ⟨a, _ | ⟨b, rest⟩⟩
      · rw [detect_of_nil hh] at hdet
        exact absurd (hdet ▸ hL) hUM
      · rw [detect_of_single hh] at hdet
        rw [hdet]
      · rw [detect_of_multi (by rw [hh]; simp)] at hdet
        exact absurd (hdet ▸ hL) hUM
    · intro hh
      exact detect_of_single hh
  · intro hlen
    rcases hh : modelHits text with _ | ⟨a, _ | ⟨b, rest⟩⟩
    · exact detect_of_nil hh
    · rw [hh] at hlen; simp at hlen
    · exact detect_of_multi (by rw [hh]; simp)

/-- C2 witness: a unique hit and an ambiguous pair, through the theorem. -/
theorem C2_witness :
    detect_model_name ("kimi!").toList = "Kimi" ∧
    detect_model_name ("plain text").toList = "Unknown / Multiple" :=
  ⟨((C2_detect_model_name ("kimi!").toList).1 "Kimi" (by decide)).mpr (by decide),
    (C2_detect_model_name ("plain text").toList).2.1 (by decide)⟩

/-! ## Claim C5 — `fetch_all_threads` -/

theorem fetchLoop_spec {T : Type} (src : Nat → List T) (batch : Nat) :
    ∀ (fuel off : Nat) (acc : List T) (calls : List Nat) (ts : List T) (outCalls : List Nat),
      fetchLoop src batch fuel off acc calls = some (ts, outCalls) →
      ∃ newCalls : List Nat,
        outCalls = calls ++ newCalls ∧
        newCalls = (List.range newCalls.length).map (fun i => off + i * batch) ∧
        newCalls ≠ [] ∧
        ts = acc ++ (newCalls.map src).flatten ∧
        (∀ c ∈ newCalls.dropLast, src c ≠ [] ∧ batch ≤ (src c).length) ∧
        (∀ c, newCalls.getLast? = some c → src c = [] ∨ (src c).length < batch) := by
  intro fuel
  induction fuel with
  | zero => intro off acc calls ts outCalls h; simp [fetchLoop] at h
  | succ fuel ih =>
    intro off acc calls ts outCalls h
    rw [fetchLoop] at h
    by_cases h1 : (src off).isEmpty
    · rw [if_pos h1] at h
      obtain ⟨hts, hcalls⟩ : acc = ts ∧ calls ++ [off] = outCalls := by
        have := Option.some.inj h; exact ⟨congrArg Prod.fst this, congrArg Prod.snd this⟩
      refine ⟨[off], hcalls.symm, by simp [List.range_succ], by simp, ?_, by simp, ?_⟩
      · rw [← hts]; simp [List.isEmpty_iff.mp h1]
      · intro c hc
        simp at hc
        subst hc
        exact Or.inl (List.isEmpty_iff.mp h1)
    · rw [if_neg h1] at h
      by_cases h2 : (src off).length < batch
      · rw [if_pos h2] at h
        obtain ⟨hts, hcalls⟩ : acc ++ src off = ts ∧ calls ++ [off] = outCalls := by
          have := Option.some.inj h; exact ⟨congrArg Prod.fst this, congrArg Prod.snd this⟩
        refine ⟨[off], hcalls.symm, by simp [List.range_succ], by simp, by simp [← hts], by simp, ?_⟩
        intro c hc
        simp at hc
        subst hc
        exact Or.inr h2
      · rw [if_neg h2] at h
        obtain ⟨nc, hout, hrange, hne, hts, hmid, hlast⟩ :=
          ih (off + batch) (acc ++ src off) (calls ++ [off]) ts outCalls h
        refine ⟨off :: nc, by simpa using hout, ?_, by simp, ?_, ?_, ?_⟩
        · rw [List.length_cons, List.range_succ_eq_map, List.map_cons, List.map_map]
          rw [List.map_congr_left
            (show ∀ i ∈ List.range nc.length,
                ((fun i => off + i * batch) ∘ Nat.succ) i = (fun i => off + batch + i * batch) i by
              intro i _
              simp [Function.comp, Nat.succ_mul]
              omega)]
          simp [← hrange]
        · rw [hts, List.map_cons, List.flatten_cons, List.append_assoc]
        · intro c hc
          rw [List.dropLast_cons_of_ne_nil hne] at hc
          rcases List.mem_cons.mp hc with hc | hc
          · subst hc
            exact ⟨fun hnil => h1 (by simp [hnil]), le_of_not_lt h2⟩
          · exact hmid c hc
        · intro c hc
          rw [List.getLast?_cons] at hc
          obtain ⟨d, hd⟩ : ∃ d, nc.getLast? = some d := by
            cases hx : nc.getLast? with
            | none => exact absurd (List.getLast?_eq_none_iff.mp hx) hne
            | some d => exact ⟨d, rfl⟩
          rw [hd] at hc
          simp at hc
          subst hc
          exact hlast d hd

/-- C5: `fetch_all_threads` requests offsets `0, batch, 2·batch, …`,
accumulates all returned pages in order, keeps requesting only after full
pages, and stops immediately after the first empty or short page; on a
source holding 150 threads with `batch_size = 100` it makes exactly the
two calls at offsets 0 and 100 and returns all 150 threads. -/
theorem C5_fetch_all_threads :
    (∀ (T : Type) (src : Nat → List T) (batch fuel : Nat) (ts : List T) (calls : List Nat),
      fetch_all_threads src batch fuel = some (ts, calls) →
        calls = (List.range calls.length).map (· * batch) ∧
        ts = (calls.map src).flatten ∧
        calls ≠ [] ∧
        (∀ c ∈ calls.dropLast, src c ≠ [] ∧ batch ≤ (src c).length) ∧
        (∀ c, calls.getLast? = some c → src c = [] ∨ (src c).length < batch)) ∧
    fetch_all_threads (pagedSource (List.range 150) 100) 100 10
      = some (List.range 150, [0, 100]) := by
  constructor
  · intro T src batch fuel ts calls h
    obtain ⟨nc, hout, hrange, hne, hts, hmid, hlast⟩ :=
      fetchLoop_spec src batch fuel 0 [] [] ts calls h
    rw [List.nil_append] at hout
    subst hout
    refine ⟨?_, by simpa using hts, hne, hmid, hlast⟩
    exact hrange.trans (List.map_congr_left fun i _ => Nat.zero_add _)
  · rfl

/-- C5 witness: the conclusion of the pagination theorem at the concrete
150-thread source, hypothesis discharged by evaluation. -/
theorem C5_witness :
    ([0, 100] : List Nat) ≠ [] ∧
    (List.range 150 : List Nat) = ([0, 100].map (pagedSource (List.range 150) 100)).flatten :=
  have h := C5_fetch_all_threads.1 Nat (pagedSource (List.range 150) 100) 100 10
      (List.range 150) [0, 100] (by rfl)
  ⟨h.2.2.1, h.2.1⟩

/-! ## Claims C7, C8, C9 — attachment pipeline and manifest -/

theorem process_thread_files_eq (extractF : String → List FileInfo)
    (downloadOk writeOk : String → Bool) (pdfText : String → String)
    (download_files : Bool) (t : Thread) :
    process_thread_files extractF downloadOk writeOk pdfText download_files t =
      ((extractF t.content).filter (keepFile downloadOk download_files)).map
        (mkFileRecord pdfText download_files t.number) := by
  rw [process_thread_files]
  by_cases h : (extractF t.content).isEmpty
  · rw [if_pos h, List.isEmpty_iff.mp h]
    rfl
  · rw [if_neg h]
    suffices H : ∀ (files : List FileInfo) (acc : List FileRecord),
        files.foldl
          (fun processed f =>
            if keepFile downloadOk download_files f then
              let _ := writeOk (savedPath t.number (sanitize_filename f.filename))
              processed ++ [mkFileRecord pdfText download_files t.number f]
            else processed)
          acc
          = acc ++ (files.filter (keepFile downloadOk download_files)).map
              (mkFileRecord pdfText download_files t.number) by
      simpa using H (extractF t.content) []
    intro files
    induction files with
    | nil => intro acc; simp
    | cons f rest ih =>
      intro acc
      rw [List.foldl_cons, List.filter_cons]
      by_cases hk : keepFile downloadOk download_files f
      · rw [if_pos hk, if_pos hk, ih, List.map_cons]
        simp
      · rw [if_neg hk, if_neg hk, ih]

theorem mem_manifestKeys_dictInsert (m : List (String × ManifestEntry))
    (k : String) (v : ManifestEntry) (q : String) :
    q ∈ manifestKeys (dictInsert m k v) ↔ q ∈ manifestKeys m ∨ q = k := by
  rw [dictInsert]
  by_cases h : m.any (fun p => p.1 == k)
  · rw [if_pos h]
    have hkeys : manifestKeys (m.map (fun p => if p.1 == k then (k, v) else p))
        = manifestKeys m := by
      rw [manifestKeys, manifestKeys, List.map_map]
      refine List.map_congr_left fun p _ => ?_
      by_cases hp : p.1 == k
      · simp only [Function.comp, hp, if_pos]
        exact (beq_iff_eq.mp hp).symm
      · simp only [Function.comp, hp, Bool.false_eq_true, if_false]
    rw [hkeys]
    have hkmem : k ∈ manifestKeys m := by
      obtain ⟨p, hpm, hpk⟩ := List.any_eq_true.mp h
      exact beq_iff_eq.mp hpk ▸ List.mem_map_of_mem (·.1) hpm
    constructor
    · exact Or.inl
    · rintro (hq | rfl)
      · exact hq
      · exact hkmem
  · rw [if_neg h, manifestKeys, List.map_append]
    simp [manifestKeys]

theorem mem_manifestKeys_manifestStep (extractF : String → List FileInfo)
    (downloadOk writeOk : String → Bool) (pdfText : String → String)
    (download_files : Bool) (m : List (String × ManifestEntry)) (t : Thread) (q : String) :
    q ∈ manifestKeys (manifestStep extractF downloadOk writeOk pdfText download_files m t) ↔
      q ∈ manifestKeys m ∨
        (q = Nat.repr t.number ∧
          process_thread_files extractF downloadOk writeOk pdfText download_files t ≠ []) := by
  rw [manifestStep]
  by_cases h1 : (extractF t.content).isEmpty
  · have hempty : process_thread_files extractF downloadOk writeOk pdfText download_files t = [] := by
      rw [process_thread_files, if_pos h1]
    rw [if_pos h1]
    simp [hempty]
  · rw [if_neg h1]
    by_cases h2 : (process_thread_files extractF downloadOk writeOk pdfText download_files t).isEmpty
    · rw [if_pos h2]
      simp [List.isEmpty_iff.mp h2]
    · rw [if_neg h2, mem_manifestKeys_dictInsert]
      have hne : process_thread_files extractF downloadOk writeOk pdfText download_files t ≠ [] :=
        fun hnil => h2 (by rw [hnil]; rfl)
      simp [hne]

theorem mem_manifestKeys_foldl (extractF : String → List FileInfo)
    (downloadOk writeOk : String → Bool) (pdfText : String → String)
    (download_files : Bool) :
    ∀ (threads : List Thread) (m : List (String × ManifestEntry)) (q : String),
      q ∈ manifestKeys
          (threads.foldl (manifestStep extractF downloadOk writeOk pdfText download_files) m) ↔
        q ∈ manifestKeys m ∨
          ∃ t ∈ threads, q = Nat.repr t.number ∧
            process_thread_files extractF downloadOk writeOk pdfText download_files t ≠ [] := by
  intro threads
  induction threads with
  | nil => intro m q; simp
  | cons t rest ih =>
    intro m q
    rw [List.foldl_cons, ih, mem_manifestKeys_manifestStep]
    constructor
    · rintro ((hq | hq) | ⟨u, hu, hq⟩)
      · exact Or.inl hq
      · exact Or.inr ⟨t, List.mem_cons_self t rest, hq⟩
      · exact Or.inr ⟨u, List.mem_cons_of_mem t hu, hq⟩
    · rintro (hq | ⟨u, hu, hq⟩)
      · exact Or.inl (Or.inl hq)
      · rcases List.mem_cons.mp hu with rfl | hu
        · exact Or.inl (Or.inr hq)
        · exact Or.inr ⟨u, hu, hq⟩

/-- C7: the persisted manifest has an entry keyed by a thread's number
exactly when that thread produced at least one surviving attachment
record; in download mode an attachment whose download fails is skipped,
so a thread all of whose scanned attachments failed to download
contributes no entry. -/
theorem C7_manifest (extractF : String → List FileInfo)
    (downloadOk writeOk : String → Bool) (pdfText : String → String)
    (download_files : Bool) (threads : List Thread) (q : String) :
    (q ∈ manifestKeys (buildManifest extractF downloadOk writeOk pdfText download_files threads) ↔
      ∃ t ∈ threads, q = Nat.repr t.number ∧
        process_thread_files extractF downloadOk writeOk pdfText download_files t ≠ []) ∧
    (∀ t : Thread, download_files = true →
      (∀ f ∈ extractF t.content, downloadOk f.url = false) →
      process_thread_files extractF downloadOk writeOk pdfText download_files t = []) := by
  constructor
  · rw [buildManifest, mem_manifestKeys_foldl]
    simp [manifestKeys]
  · intro t hdl hfail
    rw [process_thread_files_eq]
    rw [List.filter_eq_nil_iff.mpr]
    · rfl
    · intro f hf
      simp [keepFile, hdl, hfail f hf]

/-- C7 witness: a thread whose single attachment download fails yields no
manifest key, and one whose download succeeds yields the key `"3"`. -/
theorem C7_witness :
    process_thread_files (fun _ => [exampleFile]) (fun _ => false) (fun _ => true)
        (fun _ => "") true exampleThread = [] ∧
    "3" ∈ manifestKeys (buildManifest (fun _ => [exampleFile]) (fun _ => true)
        (fun _ => true) (fun _ => "") true [exampleThread]) :=
  ⟨(C7_manifest (fun _ => [exampleFile]) (fun _ => false) (fun _ => true) (fun _ => "")
      true [exampleThread] "3").2 exampleThread rfl (by decide),
    (C7_manifest (fun _ => [exampleFile]) (fun _ => true) (fun _ => true) (fun _ => "")
      true [exampleThread] "3").1.mpr
      ⟨exampleThread, List.mem_cons_self _ _, rfl, by decide⟩⟩

/-- C8: an attachment record's transcript pointer is set exactly when we
are in download mode, the sanitized filename ends in `.pdf` (case-folded),
and `pdf_to_text` produced non-empty text; on empty extracted text (parse
failure or missing renderer) the record is still created, just without a
transcript pointer, and non-PDF attachments never get one. -/
theorem C8_transcript (pdfText : String → String) (download_files : Bool)
    (n : Nat) (f : FileInfo) :
    ((mkFileRecord pdfText download_files n f).transcript ≠ none ↔
      (download_files = true ∧ isPdfName (sanitize_filename f.filename) = true ∧
        pdfText (savedPath n (sanitize_filename f.filename)) ≠ "")) ∧
    (∀ (extractF : String → List FileInfo) (downloadOk writeOk : String → Bool) (t : Thread),
      f ∈ extractF t.content → keepFile downloadOk download_files f = true →
      mkFileRecord pdfText download_files t.number f ∈
        process_thread_files extractF downloadOk writeOk pdfText download_files t) ∧
    (isPdfName (sanitize_filename f.filename) = false →
      (mkFileRecord pdfText download_files n f).transcript = none) := by
  refine ⟨?_, ?_, ?_⟩
  · rw [mkFileRecord]
    by_cases h1 : download_files && isPdfName (sanitize_filename f.filename)
    · rw [if_pos h1]
      obtain ⟨hdl, hpdf⟩ := Bool.and_eq_true_iff.mp h1
      by_cases h2 : pdfText (savedPath n (sanitize_filename f.filename)) ≠ ""
      · rw [if_pos h2]
        simp [hdl, hpdf, h2]
      · rw [if_neg h2]
        simp only [ne_eq, not_not] at h2
        simp [h2]
    · rw [if_neg h1]
      rw [Bool.and_eq_true_iff] at h1
      simp only [ne_eq, not_true_eq_false]
      constructor
      · exact fun h => h.elim
      · rintro ⟨hdl, hpdf, _⟩; exact h1 ⟨hdl, hpdf⟩
  · intro extractF downloadOk writeOk t hf hk
    rw [process_thread_files_eq]
    exact List.mem_map_of_mem _ (List.mem_filter.mpr ⟨hf, hk⟩)
  · intro hpdf
    rw [mkFileRecord]
    rw [if_neg (by simp [hpdf])]

/-- C8 witness: a transcribable PDF gets a pointer; the same PDF with
empty extracted text still yields a record, with no pointer. -/
theorem C8_witness :
    ((mkFileRecord (fun _ => "text") true 3 exampleFile).transcript ≠ none) ∧
    mkFileRecord (fun _ => "") true 3 exampleFile ∈
      process_thread_files (fun _ => [exampleFile]) (fun _ => true) (fun _ => true)
        (fun _ => "") true exampleThread :=
  ⟨(C8_transcript (fun _ => "text") true 3 exampleFile).1.mpr ⟨rfl, by decide, by decide⟩,
    (C8_transcript (fun _ => "") true 3 exampleFile).2.1 (fun _ => [exampleFile])
      (fun _ => true) (fun _ => true) exampleThread (by decide) (by decide)⟩

/-- C9: in no-download mode every scanned attachment reference yields a
record — the run is independent of the download and placeholder-write
oracles (no network call; a failed write is swallowed) and of the PDF
extractor (no transcription is attempted), and every record's transcript
is `none`, even for `.pdf` names. -/
theorem C9_no_download (extractF : String → List FileInfo)
    (downloadOk downloadOk' writeOk writeOk' : String → Bool)
    (pdfText pdfText' : String → String) (t : Thread) :
    process_thread_files extractF downloadOk writeOk pdfText false t
        = (extractF t.content).map (mkFileRecord pdfText false t.number) ∧
    process_thread_files extractF downloadOk writeOk pdfText false t
        = process_thread_files extractF downloadOk' writeOk' pdfText' false t ∧
    (∀ r ∈ process_thread_files extractF downloadOk writeOk pdfText false t,
      r.transcript = none) := by
  have hmap : ∀ (pT : String → String),
      (extractF t.content).map (mkFileRecord pT false t.number)
        = (extractF t.content).map (mkFileRecord pdfText false t.number) := by
    intro pT
    refine List.map_congr_left fun f _ => ?_
    rw [mkFileRecord, mkFileRecord]
    rfl
  have heq : ∀ (dOk wOk : String → Bool) (pT : String → String),
      process_thread_files extractF dOk wOk pT false t
        = (extractF t.content).map (mkFileRecord pdfText false t.number) := by
    intro dOk wOk pT
    rw [process_thread_files_eq]
    rw [show (extractF t.content).filter (keepFile dOk false) = extractF t.content from
      List.filter_eq_self.mpr (fun f _ => rfl)]
    exact hmap pT
  refine ⟨heq downloadOk writeOk pdfText, ?_, ?_⟩
  · rw [heq downloadOk writeOk pdfText, heq downloadOk' writeOk' pdfText']
  · intro r hr
    rw [heq downloadOk writeOk pdfText] at hr
    obtain ⟨f, _, rfl⟩ := List.mem_map.mp hr
    rw [mkFileRecord]
    rfl

/-- C9 witness: concrete no-download run on a PDF-named attachment. -/
theorem C9_witness :
    process_thread_files (fun _ => [exampleFile]) (fun _ => false) (fun _ => false)
        (fun _ => "text") false exampleThread
      = [mkFileRecord (fun _ => "text") false 3 exampleFile] ∧
    (mkFileRecord (fun _ => "text") false 3 exampleFile).transcript = none :=
  ⟨(C9_no_download (fun _ => [exampleFile]) (fun _ => false) (fun _ => false) (fun _ => false)
      (fun _ => false) (fun _ => "text") (fun _ => "text") exampleThread).1,
    (C9_no_download (fun _ => [exampleFile]) (fun _ => false) (fun _ => false) (fun _ => false)
      (fun _ => false) (fun _ => "text") (fun _ => "text") exampleThread).2.2
      (mkFileRecord (fun _ => "text") false 3 exampleFile) (by decide)⟩
